import Mathlib

/-!
# Verification of the roku-pkg-cli Device Resolution & Deployment Orchestration Engine

Shallow embedding of the core of the `roku-pkg-cli` repository:
* `RokuDiscovery.discoverDevices` / `discoverViaNetworkScan` (src/lib/roku-discovery.ts),
* `RokuAPI.testConnection` (src/lib/roku-api.ts),
* `RokuDeployManager.validateProject` (src/lib/roku-deploy.ts),
* `executeTask` (src/utils/vscode-tasks.ts),
* the deploy/timeout race and artifact relocation in the `generate` command
  (src/commands/generate.ts).

Pure data transformations are embedded as Lean functions; effectful steps
(HTTP requests, child-process signals, filesystem checks) are embedded by
making the effect's outcome an explicit argument (e.g. the settled outcome of
a request) or by recording the effect operations the code issues (e.g. the
list of filesystem operations the relocation step performs), following the
structure of the TypeScript source line by line.
-/

namespace RokuPkg

/-! ## Data model (src/types.ts)

`DiscoveredDevice` from src/types.ts.  The optional TypeScript fields
(`softwareVersion?: string`, `deviceType?: string`) are embedded as `Option
String`, where `none` models the key being absent from the JavaScript object. -/

structure DiscoveredDevice where
  ip : String
  name : String
  modelName : String
  serialNumber : String
  softwareVersion : Option String := none
  deviceType : Option String := none
deriving DecidableEq, Repr

/-! ## Model of `String.prototype.localeCompare`

`discoverDevices` sorts with `a.name.localeCompare(b.name)`.  `localeCompare`
is the JavaScript builtin locale-aware comparison; under the default Unicode
collation used by Node.js it compares at a primary level that ignores case
(`'a' < 'B'` because the base letters compare `a < b`), and only uses case as
a tie-break (lowercase before uppercase) when the base-letter sequences agree.
We model this two-level collation for ASCII text by a single collation key:
the sequence of lowercased code points (shifted by 1 so that 0 is free),
followed by a `0` separator, followed by the per-character case marks.
The two keys are compared lexicographically. -/

def collKey (s : String) : List Nat :=
  (s.data.map fun c => c.toLower.toNat + 1) ++
    0 :: (s.data.map fun c => if c.isUpper then 2 else 1)

/-- Lexicographic comparison of collation keys (shorter prefix sorts first). -/
def lexCmp : List Nat → List Nat → Ordering
  | [], [] => .eq
  | [], _ :: _ => .lt
  | _ :: _, [] => .gt
  | a :: as, b :: bs =>
    match compare a b with
    | .eq => lexCmp as bs
    | o => o

/-- Model of `s.localeCompare(t)` under the default Unicode collation:
negative / zero / positive according to the collation keys. -/
def localeCompare (s t : String) : Int :=
  match lexCmp (collKey s) (collKey t) with
  | .lt => -1
  | .eq => 0
  | .gt => 1

/-- Case-sensitive lexicographic (code-point) comparison of strings.
Modelled from the spec: the order the specification asserts for the final
discovery result ("sorted by display name, case-sensitive lexicographic"),
for comparison against the order the code's `localeCompare` sort
produces. -/
def codePointLt : List Char → List Char → Bool
  | [], [] => false
  | [], _ :: _ => true
  | _ :: _, [] => false
  | c :: cs, d :: ds =>
    c.toNat < d.toNat || (c.toNat = d.toNat && codePointLt cs ds)

def codePointLe (s t : String) : Bool := s = t || codePointLt s.data t.data

/-- The comparator relation the sort call
`.sort((a, b) => a.name.localeCompare(b.name))` establishes on its output:
`a` may precede `b` iff the comparator is nonpositive on `(a, b)`. -/
def nameLe (a b : DiscoveredDevice) : Prop := localeCompare a.name b.name ≤ 0

instance : DecidableRel nameLe := fun a b =>
  inferInstanceAs (Decidable (localeCompare a.name b.name ≤ 0))

/-! ## JavaScript `Map` model

`discoverDevices` accumulates devices in a `Map<string, DiscoveredDevice>`.
A JavaScript `Map` is insertion-ordered: `set` on a fresh key appends, `set`
on an existing key updates the value in place, and `values()` iterates in
that order.  We model it as an association list. -/

abbrev DevMap := List (String × DiscoveredDevice)

def mapGet (m : DevMap) (k : String) : Option DiscoveredDevice :=
  match m.find? (fun kv => kv.1 = k) with
  | some kv => some kv.2
  | none => none

def mapSet (m : DevMap) (k : String) (v : DiscoveredDevice) : DevMap :=
  if m.any (fun kv => kv.1 = k) then
    m.map (fun kv => if kv.1 = k then (k, v) else kv)
  else
    m ++ [(k, v)]

/-- Model of the object spread `{ ...existing, ...device }` on two
`DiscoveredDevice` objects: every key present in `device` overrides
`existing`; a key absent from `device` (modelled by `none`) keeps
`existing`'s binding. -/
def spreadMerge (existing device : DiscoveredDevice) : DiscoveredDevice :=
  { ip := device.ip
    name := device.name
    modelName := device.modelName
    serialNumber := device.serialNumber
    softwareVersion := device.softwareVersion.orElse fun _ => existing.softwareVersion
    deviceType := device.deviceType.orElse fun _ => existing.deviceType }

/-- First loop of `discoverDevices`: for each SSDP device,
`devices.set(device.ip, device)`. -/
def ssdpPhase (ssdp : List DiscoveredDevice) : DevMap :=
  ssdp.foldl (fun m d => mapSet m d.ip d) []

/-- Body of the second loop of `discoverDevices`: merge one network-scan
device with any existing entry
(`devices.set(device.ip, { ...existing, ...device })`), else insert it. -/
def networkStep (m : DevMap) (d : DiscoveredDevice) : DevMap :=
  match mapGet m d.ip with
  | some existing => mapSet m d.ip (spreadMerge existing d)
  | none => mapSet m d.ip d

/-- Second loop of `discoverDevices`, over the network-scan devices. -/
def networkPhase (m : DevMap) (network : List DiscoveredDevice) : DevMap :=
  network.foldl networkStep m

/-- The merged (unsorted) device list: `Array.from(devices.values())`. -/
def mergeDevices (ssdp network : List DiscoveredDevice) : List DiscoveredDevice :=
  (networkPhase (ssdpPhase ssdp) network).map (fun kv => kv.2)

/-- `RokuDiscovery.discoverDevices`, as a function of the settled outcomes of
its two strategies.  The code runs both strategies under
`Promise.allSettled`, which never rejects; a rejected strategy contributes no
devices (its `status` is not `'fulfilled'`), and the function returns the
merged map's values sorted by `a.name.localeCompare(b.name)`.  The `Except`
result type records that the surrounding promise could in principle reject;
the body only ever resolves. -/
def discoverDevices (ssdpOutcome networkOutcome : Except String (List DiscoveredDevice)) :
    Except String (List DiscoveredDevice) :=
  let ssdp := match ssdpOutcome with | .ok l => l | .error _ => []
  let network := match networkOutcome with | .ok l => l | .error _ => []
  .ok (List.insertionSort nameLe (mergeDevices ssdp network))

/-! ## Model of `String.prototype.includes`

`generate` dispatches on `error.message.includes('timed out')`; we model the
JavaScript substring test. -/

/-- `hasPrefixChars l p` holds when `p` is a leading segment of `l`. -/
def hasPrefixChars : List Char → List Char → Bool
  | _, [] => true
  | [], _ :: _ => false
  | c :: cs, d :: ds => c = d && hasPrefixChars cs ds

def jsIncludesAux (sub : List Char) : List Char → Bool
  | [] => sub.isEmpty
  | c :: cs => hasPrefixChars (c :: cs) sub || jsIncludesAux sub cs

/-- Model of `s.includes(sub)`: `sub` occurs contiguously in `s`. -/
def jsIncludes (s sub : String) : Bool := jsIncludesAux sub.data s.data

/-! ## `RokuDiscovery.discoverViaNetworkScan` — dispatch schedule (C4)

The scan builds `checkPromises` with
`checkPromises.push(this.checkIfRokuDevice(ip))` for every prefix in
`networkRanges` and every host suffix 1–254.  In JavaScript, calling an
`async` function runs its body synchronously up to the first `await`; here
`checkIfRokuDevice` reaches `await axios.get(...)`, so the HTTP probe is
dispatched at call time, before the pending promise is pushed.  No promise
can settle during this synchronous loop (settlement needs a later event-loop
turn).  The chunked `await Promise.allSettled(chunk)` loop below it only
awaits settlement of the already-dispatched probes. -/

/-- The probe addresses, in dispatch order: for each prefix, hosts `1`–`254`
(`for (let i = 1; i <= 254; i++)`). -/
def scanProbeIps (ranges : List String) : List String :=
  ranges.flatMap fun range =>
    (List.range' 1 254).map fun i => range ++ "." ++ toString i

/-- The chunk slicing of the await loop:
`for (let i = 0; i < checkPromises.length; i += 50) slice(i, i + 50)`. -/
def sliceChunks : List α → List (List α)
  | [] => []
  | x :: xs => (x :: xs).take 50 :: sliceChunks ((x :: xs).drop 50)
termination_by l => l.length
decreasing_by simp_all [List.length_drop]; omega

/-- Events on the scan's timeline: a probe request going out, or a probe
settling (response, timeout or error). -/
inductive ScanEvt
  | dispatch (ip : String)
  | settle (ip : String)
deriving DecidableEq, Repr

/-- The execution trace forced by JavaScript's single-threaded semantics:
the build loop dispatches every probe, then the chunked await loop observes
the settlements (shown here in chunk order; no settlement can be observed
before the build loop ends). -/
def scanTrace (ranges : List String) : List ScanEvt :=
  (scanProbeIps ranges).map ScanEvt.dispatch ++
    ((sliceChunks (scanProbeIps ranges)).map fun chunk =>
      chunk.map ScanEvt.settle).flatten

/-- Number of outstanding (dispatched, unsettled) probes before each event of
the trace, plus the final count. -/
def outstandingCounts : Nat → List ScanEvt → List Nat
  | n, [] => [n]
  | n, .dispatch _ :: es => n :: outstandingCounts (n + 1) es
  | n, .settle _ :: es => n :: outstandingCounts (n - 1) es

/-- The peak number of probes simultaneously outstanding during the scan. -/
def maxOutstanding (ranges : List String) : Nat :=
  (outstandingCounts 0 (scanTrace ranges)).foldr max 0

/-! ## `RokuAPI` (src/lib/roku-api.ts) -/

structure AxiosAuth where
  username : String
  password : String
deriving DecidableEq, Repr

/-- The request-relevant part of an axios call: URL plus the optional
`auth` config entry (HTTP basic credentials); `auth := none` means the
request is sent without credentials. -/
structure AxiosRequest where
  url : String
  auth : Option AxiosAuth := none
deriving DecidableEq, Repr

/-- State established by `new RokuAPI(ip, password)`:
`baseUrl = http://ip`, `auth = { username: 'rokudev', password }`. -/
structure RokuAPIState where
  baseUrl : String
  auth : AxiosAuth
deriving DecidableEq, Repr

def mkRokuAPI (ip password : String) : RokuAPIState :=
  { baseUrl := "http://" ++ ip
    auth := { username := "rokudev", password := password } }

/-- The one request `testConnection` issues:
``axios.get(`${this.baseUrl}:8060/query/device-info`)`` — no config object,
hence no `auth` entry. -/
def testConnectionRequest (api : RokuAPIState) : AxiosRequest :=
  { url := api.baseUrl ++ ":8060/query/device-info" }

/-- The settled outcome of an HTTP request: a response with a status code, or
a network-level failure. -/
inductive AxiosOutcome
  | response (status : Nat)
  | networkError (code : String)
deriving DecidableEq, Repr

/-- `axios.get` with the default `validateStatus`: statuses outside 200–299
reject the promise; network errors reject the promise. -/
def axiosGetDefault (o : AxiosOutcome) : Except String Nat :=
  match o with
  | .response s =>
    if 200 ≤ s ∧ s ≤ 299 then .ok s
    else .error ("Request failed with status code " ++ toString s)
  | .networkError c => .error c

/-- `RokuAPI.testConnection`: awaits the GET inside `try`, returns `true` on
resolution and `false` on any rejection; it never rethrows. -/
def testConnection (outcome : AxiosOutcome) : Bool :=
  match axiosGetDefault outcome with
  | .ok _ => true
  | .error _ => false

/-! ## `RokuDeployManager.validateProject` (src/lib/roku-deploy.ts)

The filesystem is embedded as the predicate `fsExists` passed explicitly
(`fs.existsSync`). -/

/-- Model of Node `path.join(a, b)` for the joins performed here (second
argument a plain relative name): insert a separator unless one is present. -/
def joinPath (a b : String) : String :=
  if a = "" then b
  else if a.endsWith "/" then a ++ b
  else a ++ "/" ++ b

/-- `validateProject(rootDir)`: collects an error for a missing `manifest`,
then an error for a missing `source` directory — checking
`source/main.brs` only when `source` exists — and is valid exactly when no
error was collected. -/
def validateProject (fsExists : String → Bool) (rootDir : String) :
    Bool × List String :=
  let manifestErrors : List String :=
    if fsExists (joinPath rootDir "manifest") then []
    else ["Missing required file: manifest"]
  let sourceErrors : List String :=
    if fsExists (joinPath rootDir "source") then
      if fsExists (joinPath (joinPath rootDir "source") "main.brs") then []
      else ["Missing required file: source/main.brs"]
    else ["Missing required directory: source"]
  let errors := manifestErrors ++ sourceErrors
  (errors.length == 0, errors)

/-! ## `executeTask` (src/utils/vscode-tasks.ts) -/

/-- The `close` handler of `executeTask`, as a function of the exit code
Node reports (`null` when the process was terminated by a signal):
`0` resolves, `null` rejects "was terminated", any other code rejects
"failed with exit code n". -/
def closeOutcome (label : String) (exitCode : Option Int) : Except String Unit :=
  match exitCode with
  | some 0 => .ok ()
  | none => .error ("Task \"" ++ label ++ "\" was terminated")
  | some n => .error ("Task \"" ++ label ++ "\" failed with exit code " ++ toString n)

/-- The `ChildProcess` facts the timeout monitor consults: whether the
process is still running, and Node's `killed` flag.  `child.killed` is set
once `child.kill()` successfully *sends* a signal; it does not record
process exit. -/
structure ChildState where
  running : Bool
  killedFlag : Bool
deriving DecidableEq, Repr

/-- `child.kill(sig)`: when the signal is delivered, the `killed` flag is
set (the process's own reaction to the signal is not modelled here). -/
def childKill (st : ChildState) (delivered : Bool) : ChildState :=
  { st with killedFlag := st.killedFlag || delivered }

/-- The timeout monitor of `executeTask`: at expiry `child.kill('SIGTERM')`,
then 5 s later `if (!child.killed) child.kill('SIGKILL')`.  Returns the
signals the monitor sends, given the child's state at expiry and whether the
SIGTERM delivery succeeded. -/
def monitorSignals (st : ChildState) (termDelivered : Bool) : List String :=
  let st1 := childKill st termDelivered
  "SIGTERM" :: (if !st1.killedFlag then ["SIGKILL"] else [])

/-! ## Filesystem effects of the relocation step (src/commands/generate.ts) -/

/-- The filesystem operations the relocation step can issue
(`fs.copyFileSync`, `fs.unlinkSync`). -/
inductive FsOp
  | copyFile (src dst : String)
  | unlink (p : String)
deriving DecidableEq, Repr

/-- A file on disk: abstract content identity and modification time. -/
structure FileInfo where
  content : Nat
  mtime : Nat
deriving DecidableEq, Repr

def FsState := String → Option FileInfo

/-- Effect of one operation on the filesystem at time `now`: a copy writes
the source's content at the destination with a fresh modification time; an
unlink removes the file. -/
def applyFsOp (s : FsState) (now : Nat) : FsOp → FsState
  | .copyFile src dst => fun p =>
    if p = dst then (s src).map fun f => { content := f.content, mtime := now }
    else s p
  | .unlink q => fun p => if p = q then none else s p

def applyFsOps (ops : List FsOp) (now : Nat) (s : FsState) : FsState :=
  ops.foldl (fun st op => applyFsOp st now op) s

/-- Node `path.dirname` (POSIX): scan from the end, past trailing
separators, for the separator that ends the parent portion. -/
def dirnameFindEnd (cs : List Char) : Nat → Bool → Option Nat
  | 0, _ => none
  | i + 1, matchedSlash =>
    if cs.getD (i + 1) ' ' = '/' then
      if !matchedSlash then some (i + 1)
      else dirnameFindEnd cs i matchedSlash
    else dirnameFindEnd cs i false

def posixDirname (p : String) : String :=
  let cs := p.data
  if cs.length = 0 then "."
  else
    let hasRoot := cs.headD ' ' = '/'
    let e :=
      if cs.length ≤ 1 then none
      else dirnameFindEnd cs (cs.length - 1) true
    match e with
    | none => if hasRoot then "/" else "."
    | some e =>
      if hasRoot ∧ e = 1 then "//"
      else ⟨cs.take e⟩

/-- Step 5 of `generate` ("Move package to desired location if needed"):
when `packagePath` is truthy and differs from the configured output
location, copy it there and, when the two reside in different directories
(`path.dirname` comparison), unlink the original.  Otherwise no filesystem
operation is performed. -/
def relocateOps (packagePath outputLocation : String) : List FsOp :=
  if packagePath ≠ "" ∧ packagePath ≠ outputLocation then
    FsOp.copyFile packagePath outputLocation ::
      (if posixDirname packagePath ≠ posixDirname outputLocation then
        [FsOp.unlink packagePath]
      else [])
  else []

/-! ## The deploy/timeout race of `generate` (src/commands/generate.ts) -/

/-- `const deploymentTimeout = options?.skipBuild ? 180000 : 300000` —
the budget, in milliseconds, the full deploy is raced against. -/
def deploymentTimeoutMs (skipBuild : Bool) : Nat :=
  if skipBuild then 180000 else 300000

/-- How the `Promise.race` between `deployAndSignPackage` and the timeout
promise resolves: the deploy completes first with a package path, the deploy
rejects first, or the timer fires first. -/
inductive DeployRaceOutcome
  | completed (packagePath : String)
  | failed (message : String)
  | timerFired
deriving DecidableEq, Repr

/-- How the full-deploy branch leaves the pipeline: continue to the
relocation step with a package path, terminate the process with an exit
status (`process.exit(1)`), or rethrow an error to the outer handler. -/
inductive StageExit
  | proceed (packagePath : String)
  | exitProcess (code : Nat)
  | thrown (message : String)
deriving DecidableEq, Repr

/-- The `catch (timeoutError)` block of the full-deploy branch: when the
message contains `'timed out'`, prompt the single package-only fallback
(`trySimple`); an affirmative answer runs `createPackage` (whose outcome is
`fallback`), a negative answer runs `process.exit(1)`.  Other errors are
rethrown.  The second component counts fallback offers prompted. -/
def deployCatch (message : String) (trySimpleAnswer : Bool)
    (fallback : Except String String) : StageExit × Nat :=
  if jsIncludes message "timed out" then
    if trySimpleAnswer then
      match fallback with
      | .ok p => (.proceed p, 1)
      | .error e => (.thrown e, 1)
    else (.exitProcess 1, 1)
  else (.thrown message, 0)

/-- The full-deploy branch of `generate`: the race either yields a package
path, or its rejection is handled by `deployCatch`.  The timer rejects with
`'Deployment timed out after 5 minutes'`. -/
def fullDeployStage (race : DeployRaceOutcome) (trySimpleAnswer : Bool)
    (fallback : Except String String) : StageExit × Nat :=
  match race with
  | .completed p => (.proceed p, 0)
  | .timerFired =>
    deployCatch "Deployment timed out after 5 minutes" trySimpleAnswer fallback
  | .failed msg => deployCatch msg trySimpleAnswer fallback

/-- The filesystem operations performed after the deploy stage: the
relocation step runs only when the stage proceeded with a package path;
`process.exit` and thrown errors skip it. -/
def postDeployFsOps (res : StageExit) (outputLocation : String) : List FsOp :=
  match res with
  | .proceed p => relocateOps p outputLocation
  | _ => []

/-- Invariant of the discovery map: every entry is stored under its device's
address (`devices.set(device.ip, ...)` is the only write). -/
def keyConsistent (m : DevMap) : Prop := ∀ kv ∈ m, kv.2.ip = kv.1

/-! ## Theorems -/

/-- C2: for every outcome of the two discovery strategies — including both
failing with network-level errors — `discoverDevices` resolves normally with
the subset of devices found (the empty list when both strategies failed) and
never propagates a network error to the caller. -/
theorem discover_never_propagates_network_errors :
    (∀ ssdpOutcome networkOutcome : Except String (List DiscoveredDevice),
      ∃ l, discoverDevices ssdpOutcome networkOutcome = .ok l)
    ∧ ∀ e₁ e₂ : String, discoverDevices (.error e₁) (.error e₂) = .ok [] := by
  refine ⟨fun o₁ o₂ => ⟨_, rfl⟩, fun e₁ e₂ => rfl⟩

/-- C3 (code bug): `testConnection` — the credential test of `RokuAPI` — does
not attach the stored credentials to the request it issues (`auth = none`),
so its request and result are identical for a wrong and a right password; it
does return `false` on a 401/403 response or a connection error and `true`
on success, without throwing. -/
theorem testConnection_sends_no_credentials :
    (testConnectionRequest (mkRokuAPI "192.168.1.10" "wrong-secret")).auth = none
    ∧ testConnectionRequest (mkRokuAPI "192.168.1.10" "wrong-secret")
        = testConnectionRequest (mkRokuAPI "192.168.1.10" "right-secret")
    ∧ testConnection (.response 401) = false
    ∧ testConnection (.response 403) = false
    ∧ testConnection (.networkError "ECONNREFUSED") = false
    ∧ testConnection (.response 200) = true := by
  refine ⟨rfl, rfl, rfl, rfl, rfl, rfl⟩

/-- C6 (code bug): when the timeout monitor of `executeTask` fires against a
process that ignores SIGTERM (still running, signal delivered), no SIGKILL
follows — the `!child.killed` guard is already false because `killed` is set
by sending SIGTERM — and the eventual rejection for a signal-terminated
process is the generic `was terminated` error for every cause, which does
not contain the `timed out` marker the caller tests for, so a timeout is not
reported distinctly. -/
theorem executeTask_timeout_not_distinct :
    monitorSignals { running := true, killedFlag := false } true = ["SIGTERM"]
    ∧ (∀ label, closeOutcome label none
        = .error ("Task \"" ++ label ++ "\" was terminated"))
    ∧ closeOutcome "build" none = .error "Task \"build\" was terminated"
    ∧ jsIncludes "Task \"build\" was terminated" "timed out" = false := by
  refine ⟨rfl, fun label => rfl, rfl, by decide⟩

/-- C7: the full deploy is raced against a budget of 3 minutes when the
build was skipped and 5 minutes otherwise; when the race resolves via the
timer exactly one package-only fallback is offered, a completed deploy
offers none, and declining the offer exits the process with status 1 and
performs no filesystem operation — no artifact is placed at the output
path. -/
theorem fullDeploy_timeout_race_and_fallback :
    deploymentTimeoutMs true = 3 * 60 * 1000
    ∧ deploymentTimeoutMs false = 5 * 60 * 1000
    ∧ (∀ fallback, fullDeployStage .timerFired false fallback = (.exitProcess 1, 1))
    ∧ (∀ answer fallback, (fullDeployStage .timerFired answer fallback).2 = 1)
    ∧ (∀ p answer fallback, fullDeployStage (.completed p) answer fallback = (.proceed p, 0))
    ∧ ∀ out now s, applyFsOps (postDeployFsOps (.exitProcess 1) out) now s = s := by
  refine ⟨rfl, rfl, fun fallback => rfl, ?_, fun p answer fallback => rfl,
    fun out now s => rfl⟩
  intro answer fallback
  show (deployCatch "Deployment timed out after 5 minutes" answer fallback).2 = 1
  have h : jsIncludes "Deployment timed out after 5 minutes" "timed out" = true := by decide
  unfold deployCatch
  rw [h]
  cases answer
  · rfl
  · cases fallback <;> rfl

/-- C8: `validateProject` collects every missing required item: when both
the manifest file and the source directory are absent, the result is invalid
and the error list contains both the missing-manifest and the
missing-source-directory entries; and for every build directory the result
is valid exactly when the error list is empty. -/
theorem validateProject_enumerates_all_missing
    (fsExists : String → Bool) (rootDir : String)
    (hm : fsExists (joinPath rootDir "manifest") = false)
    (hs : fsExists (joinPath rootDir "source") = false) :
    (validateProject fsExists rootDir).1 = false
    ∧ "Missing required file: manifest" ∈ (validateProject fsExists rootDir).2
    ∧ "Missing required directory: source" ∈ (validateProject fsExists rootDir).2
    ∧ ∀ (g : String → Bool) (r : String),
        (validateProject g r).1 = true ↔ (validateProject g r).2 = [] := by
  refine ⟨?_, ?_, ?_, ?_⟩
  · simp [validateProject, hm, hs]
  · simp [validateProject, hm, hs]
  · simp [validateProject, hm, hs]
  · intro g r
    simp only [validateProject]
    constructor
    · intro h
      have : ((if g (joinPath r "manifest") then [] else ["Missing required file: manifest"]) ++
          (if g (joinPath r "source") then
            (if g (joinPath (joinPath r "source") "main.brs") then []
              else ["Missing required file: source/main.brs"])
            else ["Missing required directory: source"])).length = 0 := by
        simpa using h
      simpa using List.eq_nil_of_length_eq_zero this
    · intro h
      simp [h] at *

/-- C8 witness: a root where neither `manifest` nor `source` exists. -/
theorem validateProject_enumerates_all_missing_witness :
    (validateProject (fun _ => false) "/app").1 = false
    ∧ "Missing required file: manifest" ∈ (validateProject (fun _ => false) "/app").2
    ∧ "Missing required directory: source" ∈ (validateProject (fun _ => false) "/app").2 :=
  let h := validateProject_enumerates_all_missing (fun _ => false) "/app" rfl rfl
  ⟨h.1, h.2.1, h.2.2.1⟩

/-- C10: when the source directory is absent, the entry-point check is not
performed: the missing-entry-point error never appears in the error list,
and the missing-source-directory and missing-entry-point errors never appear
together for any build directory. -/
theorem validateProject_entry_point_masked
    (fsExists : String → Bool) (rootDir : String)
    (hs : fsExists (joinPath rootDir "source") = false) :
    "Missing required file: source/main.brs" ∉ (validateProject fsExists rootDir).2
    ∧ ∀ (g : String → Bool) (r : String),
        ¬("Missing required directory: source" ∈ (validateProject g r).2
          ∧ "Missing required file: source/main.brs" ∈ (validateProject g r).2) := by
  constructor
  · cases hm : fsExists (joinPath rootDir "manifest") <;>
      simp [validateProject, hm, hs]
  · intro g r
    cases hm : g (joinPath r "manifest") <;>
      cases hsrc : g (joinPath r "source") <;>
        cases hmain : g (joinPath (joinPath r "source") "main.brs") <;>
          simp [validateProject, hm, hsrc, hmain]

/-- C10 witness: a root with no source directory. -/
theorem validateProject_entry_point_masked_witness :
    "Missing required file: source/main.brs" ∉ (validateProject (fun _ => false) "/app").2 :=
  (validateProject_entry_point_masked (fun _ => false) "/app" rfl).1

/-- C9: relocating an artifact already at the configured output path
performs no copy and no delete, leaving every file and its modification time
unchanged; when the paths differ (and the artifact path is truthy) the
artifact is copied to the output path, and the original is unlinked exactly
when its directory differs from the output path's directory. -/
theorem relocate_noop_and_move :
    (∀ p, relocateOps p p = [])
    ∧ (∀ p now s, applyFsOps (relocateOps p p) now s = s)
    ∧ ∀ p out, p ≠ "" → p ≠ out →
        relocateOps p out = FsOp.copyFile p out ::
          (if posixDirname p ≠ posixDirname out then [FsOp.unlink p] else []) := by
  have h₁ : ∀ p, relocateOps p p = [] := by
    intro p
    simp [relocateOps]
  refine ⟨h₁, fun p now s => by rw [h₁]; rfl, ?_⟩
  intro p out hne hneq
  simp [relocateOps, hne, hneq]

/-- C9 witness: the artifact staged in `/tmp/staged` is copied to `/out` and
the original, living in a different directory, is removed; the same path
relocated onto itself is untouched. -/
theorem relocate_noop_and_move_witness :
    relocateOps "/out/demo.pkg" "/out/demo.pkg" = []
    ∧ relocateOps "/tmp/staged/demo.pkg" "/out/demo.pkg"
        = [FsOp.copyFile "/tmp/staged/demo.pkg" "/out/demo.pkg",
           FsOp.unlink "/tmp/staged/demo.pkg"] := by
  have h := relocate_noop_and_move
  refine ⟨h.1 "/out/demo.pkg", ?_⟩
  rw [h.2.2 "/tmp/staged/demo.pkg" "/out/demo.pkg" (by decide) (by decide)]
  decide

/-! ### Subnet-scan concurrency (C4) -/

/-- Every member of a list of naturals is bounded by its `foldr max`. -/
theorem le_foldr_max_of_mem {a : Nat} {l : List Nat} (h : a ∈ l) :
    a ≤ l.foldr max 0 := by
  induction l with
  | nil => cases h
  | cons b l ih =>
    simp only [List.foldr_cons]
    rcases List.mem_cons.mp h with rfl | h'
    · exact Nat.le_max_left _ _
    · exact Nat.le_trans (ih h') (Nat.le_max_right _ _)

/-- After a block of `ips.length` dispatch events, the outstanding count has
grown from `n` to `n + ips.length`, whatever settles afterwards. -/
theorem mem_outstandingCounts_dispatch :
    ∀ (ips : List String) (n : Nat) (es : List ScanEvt),
      n + ips.length ∈ outstandingCounts n (ips.map ScanEvt.dispatch ++ es) := by
  intro ips
  induction ips with
  | nil =>
    intro n es
    simp only [List.map_nil, List.nil_append, List.length_nil, Nat.add_zero]
    cases es with
    | nil => simp [outstandingCounts]
    | cons e es => cases e <;> simp [outstandingCounts]
  | cons ip ips ih =>
    intro n es
    simp only [List.map_cons, List.cons_append, outstandingCounts, List.length_cons]
    refine List.mem_cons_of_mem _ ?_
    have h := ih (n + 1) es
    have harith : n + 1 + ips.length = n + (ips.length + 1) := by omega
    rwa [harith] at h

/-- C4 (code bug): the subnet probe dispatches every HTTP probe while
building `checkPromises` — before the first chunked await — so with a single
network prefix 254 probes are outstanding at one instant; the chunks of 50
bound only the awaiting, not the number of in-flight requests, refuting the
50-outstanding bound. -/
theorem networkScan_concurrency_unbounded :
    254 ≤ maxOutstanding ["192.168.1"] ∧ ¬ maxOutstanding ["192.168.1"] ≤ 50 := by
  have hlen : (scanProbeIps ["192.168.1"]).length = 254 := by
    simp [scanProbeIps]
  have hmem : (254 : Nat) ∈ outstandingCounts 0 (scanTrace ["192.168.1"]) := by
    unfold scanTrace
    have h := mem_outstandingCounts_dispatch (scanProbeIps ["192.168.1"]) 0
      (((sliceChunks (scanProbeIps ["192.168.1"])).map fun chunk =>
        chunk.map ScanEvt.settle).flatten)
    rw [hlen] at h
    simpa using h
  have hle : (254 : Nat) ≤ maxOutstanding ["192.168.1"] := le_foldr_max_of_mem hmem
  exact ⟨hle, fun hcon => by omega⟩

/-! ### Sort order of the discovery result (C5) -/

theorem natCompare_swap (a b : Nat) : compare b a = (compare a b).swap := by
  rcases Nat.lt_trichotomy a b with h | h | h
  · rw [Nat.compare_eq_lt.mpr h, Nat.compare_eq_gt.mpr h]; rfl
  · subst h; rw [Nat.compare_eq_eq.mpr rfl]; rfl
  · rw [Nat.compare_eq_gt.mpr h, Nat.compare_eq_lt.mpr h]; rfl

theorem lexCmp_swap : ∀ a b : List Nat, lexCmp b a = (lexCmp a b).swap := by
  intro a
  induction a with
  | nil => intro b; cases b <;> rfl
  | cons x xs ih =>
    intro b
    cases b with
    | nil => rfl
    | cons y ys =>
      simp only [lexCmp]
      rw [natCompare_swap x y]
      cases h : compare x y <;> simp [Ordering.swap, ih ys]

theorem lexCmp_trans :
    ∀ a b c : List Nat, lexCmp a b ≠ .gt → lexCmp b c ≠ .gt → lexCmp a c ≠ .gt := by
  intro a
  induction a with
  | nil =>
    intro b c _ _
    cases c <;> simp [lexCmp]
  | cons x xs ih =>
    intro b c h₁ h₂
    cases b with
    | nil => simp [lexCmp] at h₁
    | cons y ys =>
      cases c with
      | nil => simp [lexCmp] at h₂
      | cons z zs =>
        simp only [lexCmp] at h₁ h₂ ⊢
        cases hxy : compare x y <;> rw [hxy] at h₁
        · have hxyn : x < y := Nat.compare_eq_lt.mp hxy
          cases hyz : compare y z <;> rw [hyz] at h₂
          · have : x < z := Nat.lt_trans hxyn (Nat.compare_eq_lt.mp hyz)
            rw [Nat.compare_eq_lt.mpr this]; simp
          · have : x < z := Nat.compare_eq_eq.mp hyz ▸ hxyn
            rw [Nat.compare_eq_lt.mpr this]; simp
          · exact absurd rfl h₂
        · have hxye : x = y := Nat.compare_eq_eq.mp hxy
          cases hyz : compare y z <;> rw [hyz] at h₂
          · have : x < z := hxye ▸ Nat.compare_eq_lt.mp hyz
            rw [Nat.compare_eq_lt.mpr this]; simp
          · have : x = z := hxye.trans (Nat.compare_eq_eq.mp hyz)
            rw [Nat.compare_eq_eq.mpr this]
            exact ih ys zs h₁ h₂
          · exact absurd rfl h₂
        · exact absurd rfl h₁

theorem localeCompare_le_iff (s t : String) :
    localeCompare s t ≤ 0 ↔ lexCmp (collKey s) (collKey t) ≠ .gt := by
  unfold localeCompare
  cases h : lexCmp (collKey s) (collKey t) <;> decide

instance : IsTotal DiscoveredDevice nameLe where
  total a b := by
    simp only [nameLe, localeCompare_le_iff]
    cases h : lexCmp (collKey a.name) (collKey b.name)
    · left; simp [h]
    · left; simp [h]
    · right; rw [lexCmp_swap, h]; decide

instance : IsTrans DiscoveredDevice nameLe where
  trans a b c hab hbc := by
    simp only [nameLe, localeCompare_le_iff] at hab hbc ⊢
    exact lexCmp_trans _ _ _ hab hbc

/-- C5 counterexample: with two devices named `"a"` and `"B"`, the
discovery result comes back in the order `["a", "B"]` (the `localeCompare`
order, whose primary level ignores case), although under case-sensitive
code-point comparison `"a" ≤ "B"` is false (`'a'` is code point 97, `'B'`
is 66): the adjacent pair of the returned list violates the claimed
code-point ordering. -/
theorem discover_sort_not_codepoint_counterexample :
    discoverDevices
        (.ok [{ ip := "192.168.1.2", name := "a", modelName := "Ultra",
                serialNumber := "S1" },
              { ip := "192.168.1.3", name := "B", modelName := "Express",
                serialNumber := "S2" }])
        (.ok [])
      = .ok [{ ip := "192.168.1.2", name := "a", modelName := "Ultra",
               serialNumber := "S1" },
             { ip := "192.168.1.3", name := "B", modelName := "Express",
               serialNumber := "S2" }]
    ∧ codePointLe "a" "B" = false := by
  exact ⟨rfl, by decide⟩

/-- C5 (amended): the list returned by `discoverDevices` is sorted by
display name under the comparator the code actually passes to `sort` —
`a.name.localeCompare(b.name)` — i.e. every adjacent pair (indeed every
pair in order) satisfies `localeCompare d₁.name d₂.name ≤ 0`; this
locale-aware order is not the case-sensitive code-point order. -/
theorem discover_sorted_by_localeCompare :
    ∀ ssdpOutcome networkOutcome : Except String (List DiscoveredDevice),
      ∃ l, discoverDevices ssdpOutcome networkOutcome = .ok l
        ∧ l.Sorted fun a b => localeCompare a.name b.name ≤ 0 := by
  intro o₁ o₂
  exact ⟨_, rfl, List.sorted_insertionSort nameLe _⟩

/-! ### Discovery merge (C1)

Characterization of the insertion-ordered map built by the two merge loops
of `discoverDevices`. -/

theorem mapGet_cons (kv : String × DiscoveredDevice) (m : DevMap) (k : String) :
    mapGet (kv :: m) k = if kv.1 = k then some kv.2 else mapGet m k := by
  by_cases h : kv.1 = k
  · rw [if_pos h]
    unfold mapGet
    rw [List.find?_cons_of_pos _ (by simpa using h)]
  · rw [if_neg h]
    unfold mapGet
    rw [List.find?_cons_of_neg _ (by simpa using h)]

/-- The replacing branch of `mapSet` keeps every entry's key. -/
theorem keys_map_replace (k : String) (v : DiscoveredDevice) (m : DevMap) :
    (m.map fun kv => if kv.1 = k then (k, v) else kv).map Prod.fst
      = m.map Prod.fst := by
  induction m with
  | nil => rfl
  | cons kv m ih =>
    simp only [List.map_cons, ih, List.cons.injEq, and_true]
    by_cases hk : kv.1 = k
    · rw [if_pos hk, hk]
    · rw [if_neg hk]

theorem find?_map_replace_self (k : String) (v : DiscoveredDevice) :
    ∀ m : DevMap, (m.any fun kv => kv.1 = k) = true →
      (m.map fun kv => if kv.1 = k then (k, v) else kv).find?
          (fun kv => kv.1 = k) = some (k, v) := by
  intro m
  induction m with
  | nil => intro h; cases h
  | cons kv m ih =>
    intro h
    simp only [List.map_cons]
    by_cases hk : kv.1 = k
    · rw [if_pos hk, List.find?_cons_of_pos _ (by simp)]
    · rw [if_neg hk, List.find?_cons_of_neg _ (by simpa using hk)]
      refine ih ?_
      simpa [hk] using h

theorem find?_map_replace_ne (k k' : String) (v : DiscoveredDevice) (h : k' ≠ k) :
    ∀ m : DevMap,
      (m.map fun kv => if kv.1 = k then (k, v) else kv).find?
          (fun kv => kv.1 = k')
        = m.find? (fun kv => kv.1 = k') := by
  intro m
  induction m with
  | nil => rfl
  | cons kv m ih =>
    simp only [List.map_cons]
    by_cases hk : kv.1 = k
    · rw [if_pos hk,
        List.find?_cons_of_neg _ (by simpa using fun hc => h hc.symm),
        List.find?_cons_of_neg _
          (by simp only [decide_eq_true_eq, hk]; exact fun hc => h hc.symm)]
      exact ih
    · rw [if_neg hk]
      by_cases hk' : kv.1 = k'
      · rw [List.find?_cons_of_pos _ (by simpa using hk'),
          List.find?_cons_of_pos _ (by simpa using hk')]
      · rw [List.find?_cons_of_neg _ (by simpa using hk'),
          List.find?_cons_of_neg _ (by simpa using hk')]
        exact ih

theorem find?_append_self (k : String) (v : DiscoveredDevice) :
    ∀ m : DevMap, (m.any fun kv => kv.1 = k) = false →
      (m ++ [(k, v)]).find? (fun kv => kv.1 = k) = some (k, v) := by
  intro m
  induction m with
  | nil => intro _; simp [List.find?_cons_of_pos]
  | cons kv m ih =>
    intro h
    have h' : kv.1 ≠ k ∧ (m.any fun kv => kv.1 = k) = false := by
      constructor
      · intro hc; simp [hc] at h
      · cases hm : m.any fun kv => kv.1 = k
        · rfl
        · simp [hm] at h
    rw [List.cons_append, List.find?_cons_of_neg _ (by simpa using h'.1)]
    exact ih h'.2

theorem find?_append_ne (k k' : String) (v : DiscoveredDevice) (h : k' ≠ k) :
    ∀ m : DevMap,
      (m ++ [(k, v)]).find? (fun kv => kv.1 = k')
        = m.find? (fun kv => kv.1 = k') := by
  intro m
  induction m with
  | nil =>
    simp only [List.nil_append]
    rw [List.find?_cons_of_neg _
      (by simp only [decide_eq_true_eq]; exact fun hc => h hc.symm)]
  | cons kv m ih =>
    by_cases hk' : kv.1 = k'
    · rw [List.cons_append, List.find?_cons_of_pos _ (by simpa using hk'),
        List.find?_cons_of_pos _ (by simpa using hk')]
    · rw [List.cons_append, List.find?_cons_of_neg _ (by simpa using hk'),
        List.find?_cons_of_neg _ (by simpa using hk')]
      exact ih

/-- `mapSet` read-back: the written key now maps to the written value, every
other key is unchanged (JavaScript `Map.set` semantics). -/
theorem mapGet_set (m : DevMap) (k k' : String) (v : DiscoveredDevice) :
    mapGet (mapSet m k v) k' = if k' = k then some v else mapGet m k' := by
  unfold mapSet
  cases hany : (m.any fun kv => kv.1 = k) with
  | true =>
    rw [if_pos rfl]
    by_cases hk : k' = k
    · rw [if_pos hk, hk]
      unfold mapGet
      rw [find?_map_replace_self k v m hany]
    · rw [if_neg hk]
      unfold mapGet
      rw [find?_map_replace_ne k k' v hk m]
  | false =>
    rw [if_neg Bool.false_ne_true]
    by_cases hk : k' = k
    · rw [if_pos hk, hk]
      unfold mapGet
      rw [find?_append_self k v m hany]
    · rw [if_neg hk]
      unfold mapGet
      rw [find?_append_ne k k' v hk m]

theorem anyKey_iff (m : DevMap) (k : String) :
    (m.any fun kv => kv.1 = k) = true ↔ k ∈ m.map Prod.fst := by
  constructor
  · intro h
    rcases List.any_eq_true.mp h with ⟨kv, hm, hk⟩
    rw [decide_eq_true_eq] at hk
    exact hk ▸ List.mem_map_of_mem Prod.fst hm
  · intro h
    rcases List.mem_map.mp h with ⟨kv, hm, hk⟩
    exact List.any_eq_true.mpr ⟨kv, hm, by simp [hk]⟩

theorem keys_set_pos {m : DevMap} {k : String} (v : DiscoveredDevice)
    (h : (m.any fun kv => kv.1 = k) = true) :
    (mapSet m k v).map Prod.fst = m.map Prod.fst := by
  unfold mapSet
  rw [if_pos h]
  exact keys_map_replace k v m

theorem keys_set_neg {m : DevMap} {k : String} (v : DiscoveredDevice)
    (h : (m.any fun kv => kv.1 = k) = false) :
    (mapSet m k v).map Prod.fst = m.map Prod.fst ++ [k] := by
  unfold mapSet
  rw [if_neg (by rw [h]; exact Bool.false_ne_true)]
  simp

theorem keys_set_mem (m : DevMap) (k : String) (v : DiscoveredDevice) (k' : String) :
    k' ∈ (mapSet m k v).map Prod.fst ↔ k' ∈ m.map Prod.fst ∨ k' = k := by
  cases h : (m.any fun kv => kv.1 = k) with
  | false => rw [keys_set_neg v h]; simp
  | true =>
    rw [keys_set_pos v h]
    have hk : k ∈ m.map Prod.fst := (anyKey_iff m k).mp h
    constructor
    · exact Or.inl
    · rintro (h' | rfl)
      · exact h'
      · exact hk

theorem keys_set_nodup {m : DevMap} {k : String} (v : DiscoveredDevice)
    (hm : (m.map Prod.fst).Nodup) : ((mapSet m k v).map Prod.fst).Nodup := by
  cases h : (m.any fun kv => kv.1 = k) with
  | true => rw [keys_set_pos v h]; exact hm
  | false =>
    rw [keys_set_neg v h]
    have hk : k ∉ m.map Prod.fst := fun hc => by
      rw [(anyKey_iff m k).mpr hc] at h
      cases h
    rw [List.nodup_append]
    refine ⟨hm, List.nodup_singleton k, ?_⟩
    intro a ha hb
    simp at hb
    subst hb
    exact hk ha

theorem keyConsistent_set {m : DevMap} {k : String} {v : DiscoveredDevice}
    (hm : keyConsistent m) (hv : v.ip = k) : keyConsistent (mapSet m k v) := by
  unfold mapSet
  split
  · intro kv hkv
    rw [List.mem_map] at hkv
    obtain ⟨kv0, h0, heq⟩ := hkv
    by_cases hk : kv0.1 = k
    · rw [if_pos hk] at heq
      subst heq
      exact hv
    · rw [if_neg hk] at heq
      subst heq
      exact hm kv0 h0
  · intro kv hkv
    rcases List.mem_append.mp hkv with h | h
    · exact hm kv h
    · simp at h
      subst h
      exact hv

/-- First merge loop: a key reads back as the unique SSDP device with that
address when there is one, else as whatever the accumulator held. -/
theorem ssdpFold_get :
    ∀ A : List DiscoveredDevice, ((A.map fun d => d.ip).Nodup) →
      ∀ (m : DevMap) (k : String),
        mapGet (A.foldl (fun acc d => mapSet acc d.ip d) m) k
          = match A.find? (fun d => d.ip = k) with
            | some d => some d
            | none => mapGet m k := by
  intro A
  induction A with
  | nil => intro _ m k; rfl
  | cons d A ih =>
    intro hA m k
    have hnd : d.ip ∉ (A.map fun d => d.ip) ∧ (A.map fun d => d.ip).Nodup := by
      rw [List.map_cons, List.nodup_cons] at hA
      exact hA
    simp only [List.foldl_cons]
    rw [ih hnd.2 (mapSet m d.ip d) k]
    by_cases hk : d.ip = k
    · have hnone : A.find? (fun a => a.ip = k) = none := by
        rw [List.find?_eq_none]
        intro a ha
        simp only [decide_eq_true_eq]
        intro hc
        have hmem : a.ip ∈ A.map fun d => d.ip := List.mem_map_of_mem _ ha
        rw [hc, ← hk] at hmem
        exact hnd.1 hmem
      rw [hnone, List.find?_cons_of_pos _ (by simpa using hk), mapGet_set,
        if_pos hk.symm]
    · rw [List.find?_cons_of_neg _ (by simpa using hk)]
      cases hfind : A.find? (fun a => a.ip = k) with
      | some a => rfl
      | none => rw [mapGet_set, if_neg fun hc => hk hc.symm]

theorem ssdpFold_keys_mem :
    ∀ (A : List DiscoveredDevice) (m : DevMap) (k : String),
      k ∈ ((A.foldl (fun acc d => mapSet acc d.ip d) m).map Prod.fst)
        ↔ k ∈ m.map Prod.fst ∨ k ∈ A.map fun d => d.ip := by
  intro A
  induction A with
  | nil => intro m k; simp
  | cons d A ih =>
    intro m k
    simp only [List.foldl_cons, List.map_cons, List.mem_cons]
    rw [ih (mapSet m d.ip d) k, keys_set_mem]
    tauto

theorem ssdpFold_keys_nodup :
    ∀ (A : List DiscoveredDevice) (m : DevMap), (m.map Prod.fst).Nodup →
      ((A.foldl (fun acc d => mapSet acc d.ip d) m).map Prod.fst).Nodup := by
  intro A
  induction A with
  | nil => intro m h; exact h
  | cons d A ih => intro m h; exact ih _ (keys_set_nodup d h)

theorem ssdpFold_consistent :
    ∀ (A : List DiscoveredDevice) (m : DevMap), keyConsistent m →
      keyConsistent (A.foldl (fun acc d => mapSet acc d.ip d) m) := by
  intro A
  induction A with
  | nil => intro m h; exact h
  | cons d A ih => intro m h; exact ih _ (keyConsistent_set h rfl)

theorem mapGet_networkStep (m : DevMap) (d : DiscoveredDevice) (k : String) :
    mapGet (networkStep m d) k
      = if k = d.ip then
          some (match mapGet m d.ip with
                | some a => spreadMerge a d
                | none => d)
        else mapGet m k := by
  unfold networkStep
  cases hm : mapGet m d.ip with
  | none => rw [mapGet_set]
  | some a => rw [mapGet_set]

theorem keys_networkStep_mem (m : DevMap) (d : DiscoveredDevice) (k' : String) :
    k' ∈ (networkStep m d).map Prod.fst ↔ k' ∈ m.map Prod.fst ∨ k' = d.ip := by
  unfold networkStep
  cases mapGet m d.ip <;> exact keys_set_mem m d.ip _ k'

theorem keys_networkStep_nodup {m : DevMap} (d : DiscoveredDevice)
    (h : (m.map Prod.fst).Nodup) : ((networkStep m d).map Prod.fst).Nodup := by
  unfold networkStep
  cases mapGet m d.ip <;> exact keys_set_nodup _ h

theorem keyConsistent_networkStep {m : DevMap} {d : DiscoveredDevice}
    (h : keyConsistent m) : keyConsistent (networkStep m d) := by
  unfold networkStep
  cases mapGet m d.ip with
  | none => exact keyConsistent_set h rfl
  | some a => exact keyConsistent_set h rfl

/-- Second merge loop: a key present in the subnet list reads back as the
subnet record spread over whatever the first loop stored, realizing the
per-field override; other keys are untouched. -/
theorem networkPhase_get :
    ∀ B : List DiscoveredDevice, ((B.map fun d => d.ip).Nodup) →
      ∀ (m : DevMap) (k : String),
        mapGet (networkPhase m B) k
          = match B.find? (fun d => d.ip = k) with
            | some b => some (match mapGet m k with
                              | some a => spreadMerge a b
                              | none => b)
            | none => mapGet m k := by
  intro B
  induction B with
  | nil => intro _ m k; rfl
  | cons b B ih =>
    intro hB m k
    have hnd : b.ip ∉ (B.map fun d => d.ip) ∧ (B.map fun d => d.ip).Nodup := by
      rw [List.map_cons, List.nodup_cons] at hB
      exact hB
    show mapGet (networkPhase (networkStep m b) B) k = _
    rw [ih hnd.2 (networkStep m b) k]
    by_cases hk : b.ip = k
    · have hnone : B.find? (fun a => a.ip = k) = none := by
        rw [List.find?_eq_none]
        intro a ha
        simp only [decide_eq_true_eq]
        intro hc
        have hmem : a.ip ∈ B.map fun d => d.ip := List.mem_map_of_mem _ ha
        rw [hc, ← hk] at hmem
        exact hnd.1 hmem
      rw [hnone, List.find?_cons_of_pos _ (by simpa using hk),
        mapGet_networkStep, if_pos hk.symm, hk]
    · rw [List.find?_cons_of_neg _ (by simpa using hk)]
      cases hfind : B.find? (fun a => a.ip = k) with
      | some a => rw [mapGet_networkStep, if_neg fun hc => hk hc.symm]
      | none => rw [mapGet_networkStep, if_neg fun hc => hk hc.symm]

theorem networkPhase_keys_mem :
    ∀ (B : List DiscoveredDevice) (m : DevMap) (k : String),
      k ∈ ((networkPhase m B).map Prod.fst)
        ↔ k ∈ m.map Prod.fst ∨ k ∈ B.map fun d => d.ip := by
  intro B
  induction B with
  | nil => intro m k; simp [networkPhase]
  | cons b B ih =>
    intro m k
    show k ∈ ((networkPhase (networkStep m b) B).map Prod.fst) ↔ _
    rw [ih (networkStep m b) k, keys_networkStep_mem]
    simp only [List.map_cons, List.mem_cons]
    tauto

theorem networkPhase_keys_nodup :
    ∀ (B : List DiscoveredDevice) (m : DevMap), (m.map Prod.fst).Nodup →
      ((networkPhase m B).map Prod.fst).Nodup := by
  intro B
  induction B with
  | nil => intro m h; exact h
  | cons b B ih => intro m h; exact ih _ (keys_networkStep_nodup b h)

theorem networkPhase_consistent :
    ∀ (B : List DiscoveredDevice) (m : DevMap), keyConsistent m →
      keyConsistent (networkPhase m B) := by
  intro B
  induction B with
  | nil => intro m h; exact h
  | cons b B ih => intro m h; exact ih _ (keyConsistent_networkStep h)

theorem mapGet_some_key_mem {m : DevMap} {k : String} {d : DiscoveredDevice}
    (h : mapGet m k = some d) : k ∈ m.map Prod.fst := by
  unfold mapGet at h
  cases hf : m.find? (fun kv => kv.1 = k) with
  | none => rw [hf] at h; cases h
  | some kv =>
    have hmem := List.mem_of_find?_eq_some hf
    have hkey := List.find?_some hf
    rw [decide_eq_true_eq] at hkey
    exact hkey ▸ List.mem_map_of_mem Prod.fst hmem

/-- In a map with distinct, consistent keys, every stored device reads back
under its own address. -/
theorem values_get_of_mem :
    ∀ m : DevMap, (m.map Prod.fst).Nodup → keyConsistent m →
      ∀ d, d ∈ m.map Prod.snd → mapGet m d.ip = some d := by
  intro m
  induction m with
  | nil => intro _ _ d h; cases h
  | cons kv m ih =>
    intro hnd hcons d hd
    have hk : kv.2.ip = kv.1 := hcons kv (List.mem_cons_self kv m)
    have hnd' : kv.1 ∉ m.map Prod.fst ∧ (m.map Prod.fst).Nodup := by
      rw [List.map_cons, List.nodup_cons] at hnd
      exact hnd
    have hcons' : keyConsistent m := fun kv' h' => hcons kv' (List.mem_cons_of_mem kv h')
    simp only [List.map_cons, List.mem_cons] at hd
    rcases hd with rfl | hd'
    · rw [mapGet_cons, if_pos hk.symm]
    · have hget := ih hnd'.2 hcons' d hd'
      have hne : kv.1 ≠ d.ip := by
        intro hc
        exact hnd'.1 (hc ▸ mapGet_some_key_mem hget)
      rw [mapGet_cons, if_neg hne]
      exact hget

theorem values_ip_eq_keys (m : DevMap) (h : keyConsistent m) :
    (m.map Prod.snd).map (fun d => d.ip) = m.map Prod.fst := by
  rw [List.map_map]
  exact List.map_congr_left fun kv hkv => h kv hkv

/-- C1: for every multicast (SSDP) device list `A` and subnet-scan device
list `B`, each keyed by distinct addresses, the merged result of
`discoverDevices` contains exactly one record per address in the union of
`A`'s and `B`'s addresses, and for every address present in both lists the
returned record's fields equal `B`'s value where `B` defines the field and
`A`'s value otherwise — per-field last-write-wins favoring the subnet
record. -/
theorem discover_merge_union_subnet_override
    (A B : List DiscoveredDevice)
    (hA : (A.map fun d => d.ip).Nodup) (hB : (B.map fun d => d.ip).Nodup)
    (l : List DiscoveredDevice)
    (hl : discoverDevices (.ok A) (.ok B) = .ok l) :
    ((l.map fun d => d.ip).Nodup)
    ∧ (∀ ip, ip ∈ l.map (fun d => d.ip)
        ↔ ip ∈ A.map (fun d => d.ip) ∨ ip ∈ B.map fun d => d.ip)
    ∧ ∀ ip a b, A.find? (fun d => d.ip = ip) = some a →
        B.find? (fun d => d.ip = ip) = some b →
        ∀ d ∈ l, d.ip = ip →
          d = { ip := b.ip, name := b.name, modelName := b.modelName,
                serialNumber := b.serialNumber,
                softwareVersion := b.softwareVersion.orElse fun _ => a.softwareVersion,
                deviceType := b.deviceType.orElse fun _ => a.deviceType } := by
  have hleq : l = List.insertionSort nameLe (mergeDevices A B) := by
    unfold discoverDevices at hl
    exact (Except.ok.inj hl).symm
  have hperm : l.Perm (mergeDevices A B) :=
    hleq ▸ List.perm_insertionSort nameLe (mergeDevices A B)
  have hM : mergeDevices A B = (networkPhase (ssdpPhase A) B).map Prod.snd := rfl
  have hknd0 : ((ssdpPhase A).map Prod.fst).Nodup :=
    ssdpFold_keys_nodup A [] List.nodup_nil
  have hknd : ((networkPhase (ssdpPhase A) B).map Prod.fst).Nodup :=
    networkPhase_keys_nodup B (ssdpPhase A) hknd0
  have hcons0 : keyConsistent (ssdpPhase A) :=
    ssdpFold_consistent A [] (fun kv h => absurd h (List.not_mem_nil kv))
  have hcons : keyConsistent (networkPhase (ssdpPhase A) B) :=
    networkPhase_consistent B (ssdpPhase A) hcons0
  have hvals : ((networkPhase (ssdpPhase A) B).map Prod.snd).map (fun d => d.ip)
      = (networkPhase (ssdpPhase A) B).map Prod.fst :=
    values_ip_eq_keys _ hcons
  refine ⟨?_, ?_, ?_⟩
  · have hpm := hperm.map fun d => d.ip
    refine hpm.symm.nodup ?_
    rw [hM, hvals]
    exact hknd
  · intro ip
    have hpm := hperm.map fun d => d.ip
    rw [hpm.mem_iff, hM, hvals, networkPhase_keys_mem]
    unfold ssdpPhase
    rw [ssdpFold_keys_mem]
    simp
  · intro ip a b ha hb d hd hdip
    have hdmem : d ∈ (networkPhase (ssdpPhase A) B).map Prod.snd := by
      rw [← hM]
      exact hperm.mem_iff.mp hd
    have hget : mapGet (networkPhase (ssdpPhase A) B) ip = some d := by
      rw [← hdip]
      exact values_get_of_mem _ hknd hcons d hdmem
    have hcompute : mapGet (networkPhase (ssdpPhase A) B) ip
        = some (spreadMerge a b) := by
      rw [networkPhase_get B hB (ssdpPhase A) ip, hb]
      have hA' : mapGet (ssdpPhase A) ip = some a := by
        unfold ssdpPhase
        rw [ssdpFold_get A hA [] ip, ha]
      rw [hA']
    rw [hget] at hcompute
    exact Option.some.inj hcompute

/-- C1 witness: two multicast devices and one subnet device overlapping on
`10.0.0.5`; the returned addresses are distinct and the overlapping record
takes the subnet fields, keeping the multicast software version that the
subnet record does not define. -/
theorem discover_merge_union_subnet_override_witness :
    (([{ ip := "10.0.0.5", name := "Living Room", modelName := "Ultra",
         serialNumber := "X1", softwareVersion := some "12.0" },
       { ip := "10.0.0.7", name := "Den", modelName := "Express",
         serialNumber := "X2" }].map fun d : DiscoveredDevice => d.ip).Nodup)
    ∧ (([{ ip := "10.0.0.5", name := "Bedroom", modelName := "Premiere",
           serialNumber := "Y2",
           deviceType := some "roku" }].map fun d : DiscoveredDevice => d.ip).Nodup)
    ∧ (([{ ip := "10.0.0.5", name := "Bedroom", modelName := "Premiere",
           serialNumber := "Y2", softwareVersion := some "12.0",
           deviceType := some "roku" },
         { ip := "10.0.0.7", name := "Den", modelName := "Express",
           serialNumber := "X2" }].map fun d : DiscoveredDevice => d.ip).Nodup) := by
  refine ⟨by decide, by decide, ?_⟩
  exact (discover_merge_union_subnet_override
    [{ ip := "10.0.0.5", name := "Living Room", modelName := "Ultra",
       serialNumber := "X1", softwareVersion := some "12.0" },
     { ip := "10.0.0.7", name := "Den", modelName := "Express",
       serialNumber := "X2" }]
    [{ ip := "10.0.0.5", name := "Bedroom", modelName := "Premiere",
       serialNumber := "Y2", deviceType := some "roku" }]
    (by decide) (by decide)
    [{ ip := "10.0.0.5", name := "Bedroom", modelName := "Premiere",
       serialNumber := "Y2", softwareVersion := some "12.0",
       deviceType := some "roku" },
     { ip := "10.0.0.7", name := "Den", modelName := "Express",
       serialNumber := "X2" }] rfl).1

end RokuPkg
